import Mathlib

set_option maxHeartbeats 1000000

/-
  Verification development for q_aifo_stfq.c (iproute2 tc module for the
  AIFO-STFQ qdisc): the option-token encoder `aifo_parse_opt`, the option
  decoder/printer `aifo_print_opt`, and the statistics renderer
  `aifo_print_xstats`, together with the collaborator primitives they call
  (libnetlink attribute append/parse, utils.c integer parsing), which are
  repository infrastructure not present under src/ and are therefore
  modelled from the spec where noted.

  Machine integers are modelled as `Nat` with explicit bounds / `% 2^w`
  where overflow matters.
-/

/-! ### Attribute schema (enum TCA_AIFO_*) -/

def TCA_AIFO_UNSPEC : Nat := 0
def TCA_AIFO_PLIMIT : Nat := 1
def TCA_AIFO_BURST : Nat := 2
def TCA_AIFO_BUCKETS_LOG : Nat := 3
def TCA_AIFO_HASH_MASK : Nat := 4
def TCA_AIFO_FLOW_PLIMIT : Nat := 5
def TCA_AIFO_SAMPLE_SIZE : Nat := 6
def TCA_AIFO_SAMPLE_PERIOD : Nat := 7
def TCA_AIFO_FLAGS : Nat := 8
def TCA_AIFO_MAX : Nat := 8

def AIFO_SAMPLE_SIZE_MAX : Nat := 1024

/-- rtnetlink: the outer nesting attribute type used for qdisc options. -/
def TCA_OPTIONS : Nat := 2

/-- libnetlink bound used by some addattr calls in the source. -/
def MAX_MSG : Nat := 16384

/-! ### ilog2 (from the source)

The C loop
```
val--;
while (val) { res++; val >>= 1; }
```
on a 32-bit unsigned `val`: the decrement wraps modulo 2^32, the loop
counts the number of binary digits of the decremented value. -/

def ilog2_loop (val res : Nat) : Nat :=
  if h : val = 0 then res else ilog2_loop (val / 2) (res + 1)
termination_by val
decreasing_by exact Nat.div_lt_self (Nat.pos_of_ne_zero h) Nat.one_lt_two

def ilog2 (val : Nat) : Nat :=
  ilog2_loop ((val + 4294967295) % 4294967296) 0

/-! ### Integer-token parsing (utils.c collaborators) -/

/-- Modelled from the spec: digit of a decimal numeral. Part of the
`get_u32`/`get_u16`/`get_unsigned` collaborators from utils.c, which are
not under src/. -/
def decDigit? (c : Char) : Option Nat :=
  if '0' ≤ c ∧ c ≤ '9' then some (c.toNat - 48) else none

/-- Modelled from the spec: digit of a hexadecimal numeral. -/
def hexDigit? (c : Char) : Option Nat :=
  if '0' ≤ c ∧ c ≤ '9' then some (c.toNat - 48)
  else if 'a' ≤ c ∧ c ≤ 'f' then some (c.toNat - 87)
  else if 'A' ≤ c ∧ c ≤ 'F' then some (c.toNat - 55)
  else none

/-- Modelled from the spec: accumulate the digits of a numeral. -/
def digitsVal (digit? : Char → Option Nat) (base : Nat) :
    List Char → Nat → Option Nat
  | [], acc => some acc
  | c :: cs, acc =>
    match digit? c with
    | some d => digitsVal digit? base cs (acc * base + d)
    | none => none

/-- Modelled from the spec: the strtoul-style numeral reader used by the
utils.c integer parsers (base 0 = decimal by default, `0x` prefix for
hexadecimal). -/
def strtoulVal (s : String) : Option Nat :=
  match s.data with
  | [] => none
  | '0' :: 'x' :: rest =>
    if rest = [] then none else digitsVal hexDigit? 16 rest 0
  | '0' :: 'X' :: rest =>
    if rest = [] then none else digitsVal hexDigit? 16 rest 0
  | cs => digitsVal decDigit? 10 cs 0

/-- Modelled from the spec: utils.c `get_u32` — parse an unsigned integer,
failing on malformed input or a value above `0xFFFFFFFF`. -/
def get_u32 (s : String) : Option Nat :=
  match strtoulVal s with
  | some v => if v ≤ 4294967295 then some v else none
  | none => none

/-- Modelled from the spec: utils.c `get_unsigned` — parse an unsigned
integer, failing on malformed input or a value above `UINT_MAX`. -/
def get_unsigned (s : String) : Option Nat :=
  match strtoulVal s with
  | some v => if v ≤ 4294967295 then some v else none
  | none => none

/-- Modelled from the spec: utils.c `get_u16` — parse an unsigned integer,
failing on malformed input or a value above `0xFFFF`. -/
def get_u16 (s : String) : Option Nat :=
  match strtoulVal s with
  | some v => if v ≤ 65535 then some v else none
  | none => none

/-- Modelled from the spec: ASCII lower-casing of one character, the
per-character step of libc strcasecmp as used for the `flags` token. -/
def lowerChar (c : Char) : Char :=
  if 'A' ≤ c ∧ c ≤ 'Z' then Char.ofNat (c.toNat + 32) else c

/-- Modelled from the spec: case-insensitive comparison support (libc
strcasecmp, not under src/): lower-case a token before comparing. -/
def lowerStr (s : String) : String := String.mk (s.data.map lowerChar)

/-! ### Parsed configuration (the local variables of aifo_parse_opt) -/

structure Cfg where
  plimit : Nat := 4294967295
  burst : Nat := 4294967295
  buckets : Nat := 0
  hash_mask : Nat := 0
  flow_plimit : Nat := 4294967295
  sample_size : Nat := 65535
  sample_period : Nat := 65535
  flags : Nat := 0
  flags_upd : Bool := false
deriving DecidableEq, Repr

/-- The error taxonomy of the encoder's token loop. The C function prints
a message and returns -1 in each case (missing argument goes through the
NEXT_ARG macro / incomplete_command from utils.h, not under src/, modelled
from the spec as a MissingArgument failure). -/
inductive ParseErr where
  | unknownOption (tok : String)
  | missingArgument (tok : String)
  | invalidInteger (tok : String)
  | valueTooLarge (tok : String)
  | helpRequested
deriving DecidableEq, Repr

/-- The token loop of `aifo_parse_opt` (q_aifo_stfq.c lines 94-158):
strictly left-to-right, each recognized option name consumes one value
token; `flags` is matched case-insensitively (strcasecmp, modelled by
`lowerStr`); `help` and unknown names fail. -/
def parseArgs : List String → Cfg → Except ParseErr Cfg
  | [], c => .ok c
  | a :: rest, c =>
    if a = "limit" then
      match rest with
      | [] => .error (.missingArgument a)
      | v :: rest2 =>
        match get_u32 v with
        | some x => parseArgs rest2 { c with plimit := x }
        | none => .error (.invalidInteger a)
    else if a = "buckets" then
      match rest with
      | [] => .error (.missingArgument a)
      | v :: rest2 =>
        match get_unsigned v with
        | some x => parseArgs rest2 { c with buckets := x }
        | none => .error (.invalidInteger a)
    else if a = "burst" then
      match rest with
      | [] => .error (.missingArgument a)
      | v :: rest2 =>
        match get_u32 v with
        | some x => parseArgs rest2 { c with burst := x }
        | none => .error (.invalidInteger a)
    else if a = "hash_mask" then
      match rest with
      | [] => .error (.missingArgument a)
      | v :: rest2 =>
        match get_u32 v with
        | some x => parseArgs rest2 { c with hash_mask := x }
        | none => .error (.invalidInteger a)
    else if a = "flow_limit" then
      match rest with
      | [] => .error (.missingArgument a)
      | v :: rest2 =>
        match get_u32 v with
        | some x => parseArgs rest2 { c with flow_plimit := x }
        | none => .error (.invalidInteger a)
    else if a = "samples" then
      match rest with
      | [] => .error (.missingArgument a)
      | v :: rest2 =>
        match get_u16 v with
        | some x =>
          if AIFO_SAMPLE_SIZE_MAX < x then .error (.valueTooLarge a)
          else parseArgs rest2 { c with sample_size := x }
        | none => .error (.invalidInteger a)
    else if a = "speriod" then
      match rest with
      | [] => .error (.missingArgument a)
      | v :: rest2 =>
        match get_u16 v with
        | some x => parseArgs rest2 { c with sample_period := x }
        | none => .error (.invalidInteger a)
    else if lowerStr a = "flags" then
      match rest with
      | [] => .error (.missingArgument a)
      | v :: rest2 =>
        match get_unsigned v with
        | some x => parseArgs rest2 { c with flags := x, flags_upd := true }
        | none => .error (.invalidInteger a)
    else if a = "help" then .error .helpRequested
    else .error (.unknownOption a)

/-! ### The netlink message buffer and the append primitives -/

/-- One record appended to the message: a leaf attribute (type, payload
width in bytes, value) or a nest header whose length is back-patched by
addattr_nest_end (None while still open). -/
inductive NlRec where
  | attr (rtype : Nat) (width : Nat) (value : Nat)
  | nestStart (rtype : Nat) (rlen : Option Nat)
deriving DecidableEq, Repr

def NlRec.isAttr : NlRec → Bool
  | .attr _ _ _ => true
  | .nestStart _ _ => false

def NlRec.tag : NlRec → Nat
  | .attr t _ _ => t
  | .nestStart t _ => t

/-- The caller-supplied output buffer: current total length in bytes
(nlmsg_len) and the sequence of appended records. -/
structure NlMsg where
  nlmsg_len : Nat
  recs : List NlRec
deriving DecidableEq, Repr

def RTA_ALIGN (n : Nat) : Nat := ((n + 3) / 4) * 4
def NLMSG_ALIGN (n : Nat) : Nat := ((n + 3) / 4) * 4
def RTA_LENGTH (w : Nat) : Nat := 4 + w

/-- Modelled from the spec: the libnetlink buffer-append primitive
`addattr_l` (not under src/) — checks the capacity bound, reports failure
(-1) without writing, otherwise appends the record (4-byte header plus
payload, padded to 4-byte alignment) and advances nlmsg_len. -/
def addattr_w (n : NlMsg) (maxlen rtype w v : Nat) : Int × NlMsg :=
  if maxlen < NLMSG_ALIGN n.nlmsg_len + RTA_ALIGN (RTA_LENGTH w) then (-1, n)
  else
    (0, ⟨NLMSG_ALIGN n.nlmsg_len + RTA_ALIGN (RTA_LENGTH w),
         n.recs ++ [NlRec.attr rtype w v]⟩)

/-- libnetlink `addattr32`: a 4-byte-payload attribute. -/
def addattr32 (n : NlMsg) (maxlen rtype v : Nat) : Int × NlMsg :=
  addattr_w n maxlen rtype 4 v

/-- libnetlink `addattr16`: a 2-byte-payload attribute. -/
def addattr16 (n : NlMsg) (maxlen rtype v : Nat) : Int × NlMsg :=
  addattr_w n maxlen rtype 2 v

/-- Modelled from the spec: libnetlink `addattr_nest` (not under src/) —
remembers the position of the tail (record index and byte offset), appends
an open nest header (capacity permitting; the inner status is not given to
the caller), and returns the handle. -/
def addattr_nest (n : NlMsg) (maxlen rtype : Nat) : (Nat × Nat) × NlMsg :=
  if maxlen < NLMSG_ALIGN n.nlmsg_len + 4 then
    ((n.recs.length, NLMSG_ALIGN n.nlmsg_len), n)
  else
    ((n.recs.length, NLMSG_ALIGN n.nlmsg_len),
     ⟨NLMSG_ALIGN n.nlmsg_len + 4, n.recs ++ [NlRec.nestStart rtype none]⟩)

/-- Replace the record at the given index by its back-patched form. -/
def patchRec (rs : List NlRec) (i : Nat) (len : Nat) : List NlRec :=
  match rs, i with
  | [], _ => []
  | r :: rest, 0 =>
    (match r with
     | .nestStart t _ => NlRec.nestStart t (some len)
     | other => other) :: rest
  | r :: rest, i + 1 => r :: patchRec rest i len

/-- Modelled from the spec: libnetlink `addattr_nest_end` (not under
src/) — back-patches the nest header's length to span everything appended
since `addattr_nest`. -/
def addattr_nest_end (n : NlMsg) (h : Nat × Nat) : NlMsg :=
  ⟨n.nlmsg_len, patchRec n.recs h.1 (NLMSG_ALIGN n.nlmsg_len - h.2)⟩

/-- One conditional append step, `if (cond) addattrXX(n, maxlen, tag, v);`
with the returned status discarded, exactly as in the source. -/
def condAttrW (n : NlMsg) (maxlen : Nat) (b : Bool) (t w v : Nat) : NlMsg :=
  if b then (addattr_w n maxlen t w v).2 else n

/-- One planned emission: the maxlen argument, the guard, the tag, the
payload width and the value of one `if (...) addattrXX(...)` line. -/
structure Emit where
  maxlen : Nat
  cond : Bool
  tag : Nat
  width : Nat
  value : Nat
deriving DecidableEq, Repr

/-- The serialization lines of aifo_parse_opt (q_aifo_stfq.c lines
164-181), one entry per source line, in source order. -/
def planOf (c : Cfg) : List Emit :=  [
  ⟨1024, c.plimit != 4294967295, TCA_AIFO_PLIMIT, 4, c.plimit⟩,
  ⟨MAX_MSG, c.burst != 4294967295, TCA_AIFO_BURST, 4, c.burst⟩,
  ⟨1024, c.buckets != 0, TCA_AIFO_BUCKETS_LOG, 4, ilog2 c.buckets⟩,
  ⟨1024, c.hash_mask != 0, TCA_AIFO_HASH_MASK, 4, c.hash_mask⟩,
  ⟨1024, c.flow_plimit != 4294967295, TCA_AIFO_FLOW_PLIMIT, 4, c.flow_plimit⟩,
  ⟨MAX_MSG, c.sample_size != 65535, TCA_AIFO_SAMPLE_SIZE, 2, c.sample_size⟩,
  ⟨MAX_MSG, c.sample_period != 65535, TCA_AIFO_SAMPLE_PERIOD, 2, c.sample_period⟩,
  ⟨MAX_MSG, c.flags_upd, TCA_AIFO_FLAGS, 4, c.flags⟩]

/-- Run the conditional appends in order. -/
def runPlan (n : NlMsg) : List Emit → NlMsg
  | [] => n
  | p :: ps => runPlan (condAttrW n p.maxlen p.cond p.tag p.width p.value) ps

/-- The serialization phase of `aifo_parse_opt`: open the TCA_OPTIONS
nest, conditionally append each field in declaration order, close the
nest, return 0 (the source never consults the appends' statuses). -/
def aifo_serialize (c : Cfg) (n0 : NlMsg) : Int × NlMsg :=
  (0, addattr_nest_end
        (runPlan (addattr_nest n0 1024 TCA_OPTIONS).2 (planOf c))
        (addattr_nest n0 1024 TCA_OPTIONS).1)

/-- `aifo_parse_opt` (q_aifo_stfq.c lines 82-186): parse the token list;
on any token-loop failure return -1 with the buffer untouched; otherwise
serialize the parsed configuration and return 0. -/
def aifo_parse_opt (args : List String) (n : NlMsg) : Int × NlMsg :=
  match parseArgs args {} with
  | .error _ => (-1, n)
  | .ok c => aifo_serialize c n

/-! ### Declarative description of the emitted block (spec side) -/

def emitRecs (ps : List Emit) : List NlRec :=
  ps.foldr
    (fun p acc => (if p.cond then [NlRec.attr p.tag p.width p.value] else []) ++ acc)
    []

def emitLen (ps : List Emit) : Nat :=
  ps.foldr (fun p acc => (if p.cond then 8 else 0) + acc) 0

/-- The attributes the encoder emits for a parsed configuration, in the
fixed declaration order. -/
def emitted (c : Cfg) : List NlRec := emitRecs (planOf c)

/-- Total byte length of the emitted attributes. -/
def emitBytes (c : Cfg) : Nat := emitLen (planOf c)

/-! ### The decoder / printer -/

/-- One parsed inner attribute as seen by the decoder: its type and its
payload bytes. -/
structure RtAttr where
  rta_type : Nat
  rta_data : List Nat
deriving DecidableEq, Repr

/-- Modelled from the spec: libnetlink `parse_rtattr_nested` (not under
src/) fills the table with the first attribute of each type not above
max. -/
def parse_rtattr_nested (block : List RtAttr) (t : Nat) : Option RtAttr :=
  if t ≤ TCA_AIFO_MAX then block.find? (fun r => r.rta_type == t) else none

/-- Modelled from the spec: libnetlink `rta_getattr_u32` — read a 32-bit
little-endian value from the payload. (The C function dereferences 4
bytes unconditionally; bytes beyond the payload are adjacent memory and
are modelled as 0 here — only guards proved elsewhere keep reads in
bounds.) -/
def rta_getattr_u32 (p : List Nat) : Nat :=
  p.getD 0 0 + 256 * p.getD 1 0 + 65536 * p.getD 2 0 + 16777216 * p.getD 3 0

/-- Modelled from the spec: libnetlink `rta_getattr_u16`. -/
def rta_getattr_u16 (p : List Nat) : Nat :=
  p.getD 0 0 + 256 * p.getD 1 0

/-- One decoder print block: if the attribute is in the table and its
payload length reaches the checked width, render the field. -/
def printField (tb : Nat → Option RtAttr) (t wcheck : Nat) (name : String)
    (render : List Nat → Nat) : List (String × Nat) :=
  match tb t with
  | some a => if wcheck ≤ a.rta_data.length then [(name, render a.rta_data)] else []
  | none => []

/-- `aifo_print_opt` (q_aifo_stfq.c lines 189-253) on a parsed-or-absent
options block: emits (field name, numeric value) pairs in the source's
print order and always returns 0. Each guard's checked width is taken
verbatim from the source — note the BURST guard checks sizeof(u16) = 2
while the read is 32-bit, and BUCKETS_LOG renders `1 << value` (the C
shift is undefined for value ≥ 32; it is only exercised below 32 here). -/
def aifo_print_opt (opt : Option (List RtAttr)) : Int × List (String × Nat) :=
  match opt with
  | none => (0, [])
  | some block =>
    let tb := parse_rtattr_nested block
    (0,
      printField tb TCA_AIFO_PLIMIT 4 "limit" rta_getattr_u32 ++
      printField tb TCA_AIFO_BURST 2 "burst" rta_getattr_u32 ++
      printField tb TCA_AIFO_BUCKETS_LOG 4 "buckets"
        (fun p => 1 <<< rta_getattr_u32 p) ++
      printField tb TCA_AIFO_HASH_MASK 4 "hash_mask" rta_getattr_u32 ++
      printField tb TCA_AIFO_FLOW_PLIMIT 4 "flow_limit" rta_getattr_u32 ++
      printField tb TCA_AIFO_SAMPLE_SIZE 2 "samples" rta_getattr_u16 ++
      printField tb TCA_AIFO_SAMPLE_PERIOD 2 "speriod" rta_getattr_u16 ++
      printField tb TCA_AIFO_FLAGS 4 "flags" rta_getattr_u32)

/-- The wire payload of an encoded leaf record: its value in `width`
little-endian bytes (nest headers are not inner attributes). -/
def natToBytes : Nat → Nat → List Nat
  | 0, _ => []
  | w + 1, v => v % 256 :: natToBytes w (v / 256)

def recPayload : NlRec → Option RtAttr
  | .attr t w v => some ⟨t, natToBytes w v⟩
  | .nestStart _ _ => none

/-- The inner attributes of an encoded message, as the decoder sees them:
the records appended after position `base`, leaf attributes only. -/
def nestedAttrs (n : NlMsg) (base : Nat) : List RtAttr :=
  (n.recs.drop base).filterMap recPayload

/-! ### Outer decode entry (raw buffer) -/

inductive DecodeErr where
  | truncatedBuffer
deriving DecidableEq, Repr

/-- Modelled from the spec: split a raw byte sequence into the inner
(type, payload) records — the RTA_OK/RTA_NEXT walk of libnetlink's
parse_rtattr (not under src/). A record whose declared length is under
the 4-byte header or past the remaining bytes stops the walk. -/
def splitRecords : List Nat → List RtAttr
  | l0 :: l1 :: t0 :: t1 :: rest =>
    let rlen := l0 + 256 * l1
    let rtype := t0 + 256 * t1
    if rlen < 4 ∨ rest.length + 4 < rlen then []
    else ⟨rtype, rest.take (rlen - 4)⟩ :: splitRecords (rest.drop (RTA_ALIGN rlen - 4))
  | _ => []
termination_by b => b.length
decreasing_by simp [List.length_drop]; omega

/-- Modelled from the spec: the options decode entry on a raw buffer (the
outer-marker parsing lives in the tc caller / libnetlink, not under
src/) — an absent block decodes to nothing; a present buffer too small to
contain even the 4-byte block header is a TruncatedBuffer failure；
otherwise the inner records are split out and handed to
`aifo_print_opt`. -/
def decode_options (buf : Option (List Nat)) :
    Except DecodeErr (Int × List (String × Nat)) :=
  match buf with
  | none => .ok (aifo_print_opt none)
  | some b =>
    if b.length < 4 then .error .truncatedBuffer
    else .ok (aifo_print_opt (some (splitRecords (b.drop 4))))

/-! ### Statistics renderer -/

/-- struct tc_aifo_xstats (q_aifo_stfq.c lines 52-61). On the C ABI the
u64 field forces 4 padding bytes after `flows`; the byte size of the
struct is 40. -/
structure tc_aifo_xstats where
  flows : Nat
  flows_gc : Nat
  alloc_errors : Nat
  no_mark : Nat
  drop_mark : Nat
  qlen_peak : Nat
  backlog_peak : Nat
  quant_avg_1k : Nat
deriving DecidableEq, Repr

def readU32 (b : List Nat) (off : Nat) : Nat :=
  b.getD off 0 + 256 * b.getD (off + 1) 0 + 65536 * b.getD (off + 2) 0 +
    16777216 * b.getD (off + 3) 0

def readU64 (b : List Nat) (off : Nat) : Nat :=
  readU32 b off + 4294967296 * readU32 b (off + 4)

/-- Byte size of struct tc_aifo_xstats: u32, 4 bytes padding, u64, six
u32 fields. -/
def sizeof_tc_aifo_xstats : Nat := 40

/-- The cast `st = RTA_DATA(xstats)`: field access at the C struct
offsets. -/
def castXstats (b : List Nat) : tc_aifo_xstats :=
  ⟨readU32 b 0, readU64 b 8, readU32 b 16, readU32 b 20, readU32 b 24,
   readU32 b 28, readU32 b 32, readU32 b 36⟩

/-- `aifo_print_xstats` (q_aifo_stfq.c lines 255-282): absent buffer
prints nothing and succeeds; a present buffer shorter than the struct
fails with -1 and renders nothing; otherwise every field is rendered
(`quant_avg` is stored here as its fixed-point numerator `quant_avg_1k`,
which the C renders divided by 1024.0), with the two peak fields rendered
only when at least one of them is non-zero. -/
def aifo_print_xstats (xstats : Option (List Nat)) : Int × List (String × Nat) :=
  match xstats with
  | none => (0, [])
  | some b =>
    if b.length < sizeof_tc_aifo_xstats then (-1, [])
    else
      let st := castXstats b
      (0,
        [("flows", st.flows), ("flows_gc", st.flows_gc),
         ("alloc_errors", st.alloc_errors), ("no_mark", st.no_mark),
         ("drop_mark", st.drop_mark), ("quant_avg", st.quant_avg_1k)] ++
        (if st.backlog_peak != 0 || st.qlen_peak != 0 then
          [("backlog_peak", st.backlog_peak), ("qlen_peak", st.qlen_peak)]
        else []))

/-! ### Helper lemmas -/

theorem ilog2_loop_acc (m : Nat) : ∀ r, ilog2_loop m r = ilog2_loop m 0 + r := by
  induction m using Nat.strong_induction_on with
  | _ m ih =>
    intro r
    by_cases h : m = 0
    · subst h
      simp [ilog2_loop]
    · have hm : m / 2 < m := Nat.div_lt_self (Nat.pos_of_ne_zero h) Nat.one_lt_two
      conv_lhs => rw [ilog2_loop]
      conv_rhs => rw [ilog2_loop]
      rw [dif_neg h, dif_neg h]
      rw [ih (m / 2) hm (r + 1), ih (m / 2) hm (0 + 1)]
      omega

theorem ilog2_loop_lt (m : Nat) : m < 2 ^ ilog2_loop m 0 := by
  induction m using Nat.strong_induction_on with
  | _ m ih =>
    by_cases h : m = 0
    · subst h
      simp [ilog2_loop]
    · have hm : m / 2 < m := Nat.div_lt_self (Nat.pos_of_ne_zero h) Nat.one_lt_two
      rw [ilog2_loop, dif_neg h, ilog2_loop_acc]
      have h2 := ih (m / 2) hm
      rw [Nat.zero_add, pow_succ]
      omega

theorem ilog2_loop_least (m : Nat) : ∀ j, m < 2 ^ j → ilog2_loop m 0 ≤ j := by
  induction m using Nat.strong_induction_on with
  | _ m ih =>
    intro j hj
    by_cases h : m = 0
    · subst h
      simp [ilog2_loop]
    · have hm : m / 2 < m := Nat.div_lt_self (Nat.pos_of_ne_zero h) Nat.one_lt_two
      have hj0 : j ≠ 0 := by
        rintro rfl
        rw [pow_zero] at hj
        omega
      have hdiv : m / 2 < 2 ^ (j - 1) := by
        have hps : 2 ^ j = 2 ^ (j - 1) * 2 := by
          rw [← pow_succ]
          congr 1
          omega
        rw [Nat.div_lt_iff_lt_mul (by norm_num : (0 : Nat) < 2)]
        omega
      have hle := ih (m / 2) hm (j - 1) hdiv
      rw [ilog2_loop, dif_neg h, ilog2_loop_acc]
      omega

theorem ilog2_spec (v : Nat) (h1 : 1 ≤ v) (h2 : v ≤ 4294967296) :
    v ≤ 2 ^ ilog2 v ∧ ∀ j, v ≤ 2 ^ j → ilog2 v ≤ j := by
  have hm : (v + 4294967295) % 4294967296 = v - 1 := by omega
  unfold ilog2
  rw [hm]
  constructor
  · have := ilog2_loop_lt (v - 1)
    omega
  · intro j hj
    exact ilog2_loop_least (v - 1) j (by omega)

theorem condAttrW_eq (n : NlMsg) (maxlen : Nat) (b : Bool) (t w v : Nat)
    (ha : n.nlmsg_len % 4 = 0) (hw : w = 4 ∨ w = 2)
    (hcap : n.nlmsg_len + 8 ≤ maxlen) :
    condAttrW n maxlen b t w v =
      ⟨n.nlmsg_len + (if b then 8 else 0),
       n.recs ++ (if b then [NlRec.attr t w v] else [])⟩ := by
  have hal : NLMSG_ALIGN n.nlmsg_len = n.nlmsg_len := by
    unfold NLMSG_ALIGN
    omega
  have hrw : RTA_ALIGN (RTA_LENGTH w) = 8 := by
    rcases hw with rfl | rfl <;> rfl
  have hcc : ¬ maxlen < n.nlmsg_len + 8 := by omega
  cases b <;> simp [condAttrW, addattr_w, hal, hrw, hcc]

theorem runPlan_eq (ps : List Emit) : ∀ (n : NlMsg),
    n.nlmsg_len % 4 = 0 →
    n.nlmsg_len + 8 * ps.length ≤ 1024 →
    (∀ p ∈ ps, 1024 ≤ p.maxlen ∧ (p.width = 4 ∨ p.width = 2)) →
    runPlan n ps = ⟨n.nlmsg_len + emitLen ps, n.recs ++ emitRecs ps⟩ := by
  induction ps with
  | nil =>
    intro n _ _ _
    simp [runPlan, emitLen, emitRecs]
  | cons p ps ih =>
    intro n ha hcap hml
    simp only [List.length_cons] at hcap
    have hp := hml p (by simp)
    have hcap8 : n.nlmsg_len + 8 ≤ p.maxlen := by
      have := hp.1
      omega
    have hk1 : (if p.cond then 8 else 0) ≤ 8 := by
      cases p.cond <;> simp
    have hk2 : (if p.cond then 8 else 0) % 4 = 0 := by
      cases p.cond <;> simp
    rw [runPlan, condAttrW_eq n p.maxlen p.cond p.tag p.width p.value ha hp.2 hcap8]
    rw [ih ⟨n.nlmsg_len + (if p.cond then 8 else 0),
           n.recs ++ (if p.cond then [NlRec.attr p.tag p.width p.value] else [])⟩
        (by
          show (n.nlmsg_len + (if p.cond then 8 else 0)) % 4 = 0
          omega)
        (by
          show n.nlmsg_len + (if p.cond then 8 else 0) + 8 * ps.length ≤ 1024
          omega)
        (fun q hq => hml q (by simp [hq]))]
    simp only [emitLen, emitRecs, List.foldr_cons]
    rw [NlMsg.mk.injEq]
    constructor
    · show n.nlmsg_len + (if p.cond then 8 else 0) + emitLen ps =
        n.nlmsg_len + ((if p.cond then 8 else 0) + emitLen ps)
      omega
    · rw [List.append_assoc]

theorem patchRec_append (a b : List NlRec) (v : Nat) :
    patchRec (a ++ b) a.length v = a ++ patchRec b 0 v := by
  induction a with
  | nil => simp
  | cons r a ih =>
    show patchRec (r :: (a ++ b)) (a.length + 1) v = r :: (a ++ patchRec b 0 v)
    simp only [patchRec]
    rw [ih]

theorem patchRec_oob (rs : List NlRec) : ∀ i v, rs.length ≤ i → patchRec rs i v = rs := by
  induction rs with
  | nil =>
    intro i v _
    rfl
  | cons r rest ih =>
    intro i v hi
    cases i with
    | zero => simp at hi
    | succ j =>
      simp only [patchRec]
      rw [ih j v (by simp at hi; omega)]

theorem addattr_nest_eq (n : NlMsg) (t : Nat)
    (ha : n.nlmsg_len % 4 = 0) (hcap : n.nlmsg_len + 4 ≤ 1024) :
    addattr_nest n 1024 t =
      ((n.recs.length, n.nlmsg_len),
       ⟨n.nlmsg_len + 4, n.recs ++ [NlRec.nestStart t none]⟩) := by
  have hal : NLMSG_ALIGN n.nlmsg_len = n.nlmsg_len := by
    unfold NLMSG_ALIGN
    omega
  unfold addattr_nest
  rw [hal, if_neg (by omega)]

theorem emitLen_mod (ps : List Emit) : emitLen ps % 8 = 0 := by
  induction ps with
  | nil => rfl
  | cons p ps ih =>
    simp only [emitLen, List.foldr_cons] at ih ⊢
    cases p.cond <;> simp_all

theorem emitLen_le (ps : List Emit) : emitLen ps ≤ 8 * ps.length := by
  induction ps with
  | nil => simp [emitLen]
  | cons p ps ih =>
    simp only [emitLen, List.foldr_cons, List.length_cons] at ih ⊢
    cases p.cond <;> simp_all <;> try omega

theorem aifo_serialize_eq (c : Cfg) (n : NlMsg)
    (ha : n.nlmsg_len % 4 = 0) (hcap : n.nlmsg_len + 100 ≤ 1024) :
    aifo_serialize c n =
      (0, ⟨n.nlmsg_len + 4 + emitBytes c,
           n.recs ++ NlRec.nestStart TCA_OPTIONS (some (4 + emitBytes c)) :: emitted c⟩) := by
  unfold aifo_serialize
  rw [addattr_nest_eq n TCA_OPTIONS ha (by omega)]
  show (0, addattr_nest_end
      (runPlan ⟨n.nlmsg_len + 4, n.recs ++ [NlRec.nestStart TCA_OPTIONS none]⟩ (planOf c))
      (n.recs.length, n.nlmsg_len)) = _
  rw [runPlan_eq (planOf c) ⟨n.nlmsg_len + 4, n.recs ++ [NlRec.nestStart TCA_OPTIONS none]⟩
    (by
      show (n.nlmsg_len + 4) % 4 = 0
      omega)
    (by
      show n.nlmsg_len + 4 + 8 * (planOf c).length ≤ 1024
      have hpl : (planOf c).length = 8 := rfl
      omega)
    (by
      intro p hp
      simp only [planOf, List.mem_cons, List.not_mem_nil, or_false] at hp
      rcases hp with rfl | rfl | rfl | rfl | rfl | rfl | rfl | rfl <;>
        exact ⟨by norm_num [MAX_MSG], by norm_num⟩)]
  unfold addattr_nest_end
  show (0, (⟨n.nlmsg_len + 4 + emitLen (planOf c),
      patchRec ((n.recs ++ [NlRec.nestStart TCA_OPTIONS none]) ++ emitRecs (planOf c))
        n.recs.length
        (NLMSG_ALIGN (n.nlmsg_len + 4 + emitLen (planOf c)) - n.nlmsg_len)⟩ : NlMsg)) = _
  have hml8 := emitLen_mod (planOf c)
  have hal2 : NLMSG_ALIGN (n.nlmsg_len + 4 + emitLen (planOf c)) =
      n.nlmsg_len + 4 + emitLen (planOf c) := by
    unfold NLMSG_ALIGN
    omega
  rw [hal2]
  have hsub : n.nlmsg_len + 4 + emitLen (planOf c) - n.nlmsg_len =
      4 + emitLen (planOf c) := by omega
  rw [hsub, List.append_assoc]
  have hcons : [NlRec.nestStart TCA_OPTIONS none] ++ emitRecs (planOf c) =
      NlRec.nestStart TCA_OPTIONS none :: emitRecs (planOf c) := rfl
  rw [hcons, patchRec_append]
  rfl

theorem aifo_parse_opt_ok (args : List String) (c : Cfg) (n : NlMsg)
    (hp : parseArgs args {} = .ok c)
    (ha : n.nlmsg_len % 4 = 0) (hcap : n.nlmsg_len + 100 ≤ 1024) :
    aifo_parse_opt args n =
      (0, ⟨n.nlmsg_len + 4 + emitBytes c,
           n.recs ++ NlRec.nestStart TCA_OPTIONS (some (4 + emitBytes c)) :: emitted c⟩) := by
  unfold aifo_parse_opt
  rw [hp]
  exact aifo_serialize_eq c n ha hcap

theorem aifo_parse_opt_err (args : List String) (e : ParseErr) (n : NlMsg)
    (hp : parseArgs args {} = .error e) :
    aifo_parse_opt args n = (-1, n) := by
  unfold aifo_parse_opt
  rw [hp]

theorem aifo_print_opt_status (o : Option (List RtAttr)) : (aifo_print_opt o).1 = 0 := by
  cases o <;> rfl

theorem natToBytes_u32 (v : Nat) (hv : v < 4294967296) :
    rta_getattr_u32 (natToBytes 4 v) = v := by
  simp only [natToBytes, rta_getattr_u32, List.getD_cons_zero, List.getD_cons_succ]
  omega

theorem natToBytes_u16 (v : Nat) (hv : v < 65536) :
    rta_getattr_u16 (natToBytes 2 v) = v := by
  simp only [natToBytes, rta_getattr_u16, List.getD_cons_zero, List.getD_cons_succ]
  omega

theorem drop_cons_append (a : List NlRec) (r : NlRec) (b : List NlRec) :
    (a ++ r :: b).drop (a.length + 1) = b := by
  have h1 : a ++ r :: b = (a ++ [r]) ++ b := by simp
  have h2 : a.length + 1 = (a ++ [r]).length := by simp
  rw [h1, h2, List.drop_left]

theorem aifo_print_opt_single_buckets (k : Nat) (hk : k < 4294967296) :
    aifo_print_opt (some [RtAttr.mk TCA_AIFO_BUCKETS_LOG (natToBytes 4 k)]) =
      ((0 : Int), [("buckets", 1 <<< k)]) := by
  show ((0 : Int), [("buckets", 1 <<< rta_getattr_u32 (natToBytes 4 k))]) = _
  rw [natToBytes_u32 k hk]

theorem aifo_print_opt_single_flags (x : Nat) (hx : x < 4294967296) :
    aifo_print_opt (some [RtAttr.mk TCA_AIFO_FLAGS (natToBytes 4 x)]) =
      ((0 : Int), [("flags", x)]) := by
  show ((0 : Int), [("flags", rta_getattr_u32 (natToBytes 4 x))]) = _
  rw [natToBytes_u32 x hx]

theorem get_unsigned_le (s : String) (v : Nat) (h : get_unsigned s = some v) :
    v ≤ 4294967295 := by
  unfold get_unsigned at h
  rcases hs : strtoulVal s with _ | w
  · rw [hs] at h
    simp at h
  · rw [hs] at h
    by_cases hw : w ≤ 4294967295
    · simp [hw] at h
      omega
    · simp [hw] at h

/-! ### Claims -/

/-- C1: for 1 ≤ v ≤ 2^31, encoding the token pair `buckets v` emits
exactly one BUCKETS_LOG attribute whose value `ilog2 v` is the smallest k
with 2^k ≥ v (buckets=1 encodes 0); decoding and printing that attribute
renders the field `buckets` with value 2^k = 1 << k; and encoding
`buckets 0` emits no BUCKETS_LOG attribute (only the empty nest). -/
theorem claim_C1 (s : String) (v : Nat) (n : NlMsg)
    (hs : get_unsigned s = some v) (h1 : 1 ≤ v) (h2 : v ≤ 2 ^ 31)
    (ha : n.nlmsg_len % 4 = 0) (hcap : n.nlmsg_len + 100 ≤ 1024) :
    aifo_parse_opt ["buckets", s] n =
      (0, ⟨n.nlmsg_len + 12,
           n.recs ++ [NlRec.nestStart TCA_OPTIONS (some 12),
                      NlRec.attr TCA_AIFO_BUCKETS_LOG 4 (ilog2 v)]⟩) ∧
    v ≤ 2 ^ ilog2 v ∧ (∀ j, v ≤ 2 ^ j → ilog2 v ≤ j) ∧
    aifo_print_opt (some (nestedAttrs (aifo_parse_opt ["buckets", s] n).2
        (n.recs.length + 1))) =
      (0, [("buckets", 2 ^ ilog2 v)]) ∧
    (∀ s0, get_unsigned s0 = some 0 →
      aifo_parse_opt ["buckets", s0] n =
        (0, ⟨n.nlmsg_len + 4, n.recs ++ [NlRec.nestStart TCA_OPTIONS (some 4)]⟩)) := by
  have hspec := ilog2_spec v h1 (le_trans h2 (by norm_num))
  have hk31 : ilog2 v ≤ 31 := hspec.2 31 h2
  have hparse : parseArgs ["buckets", s] {} = .ok { buckets := v } := by
    simp [parseArgs, hs]
  have hb : (v != 0) = true := by
    simp only [bne_iff_ne, ne_eq]
    omega
  have hemit : emitted { buckets := v } =
      [NlRec.attr TCA_AIFO_BUCKETS_LOG 4 (ilog2 v)] := by
    simp [emitted, emitRecs, planOf, hb]
  have hbytes : emitBytes { buckets := v } = 8 := by
    simp [emitBytes, emitLen, planOf, hb]
  have henc := aifo_parse_opt_ok ["buckets", s] { buckets := v } n hparse ha hcap
  rw [hemit, hbytes] at henc
  norm_num at henc
  refine ⟨henc, hspec.1, hspec.2, ?_, ?_⟩
  · rw [henc]
    show aifo_print_opt (some ((List.drop (n.recs.length + 1)
      (n.recs ++ [NlRec.nestStart TCA_OPTIONS (some 12),
        NlRec.attr TCA_AIFO_BUCKETS_LOG 4 (ilog2 v)])).filterMap recPayload)) = _
    rw [show (n.recs ++ [NlRec.nestStart TCA_OPTIONS (some 12),
        NlRec.attr TCA_AIFO_BUCKETS_LOG 4 (ilog2 v)]) =
      n.recs ++ NlRec.nestStart TCA_OPTIONS (some 12) ::
        [NlRec.attr TCA_AIFO_BUCKETS_LOG 4 (ilog2 v)] from rfl]
    rw [drop_cons_append]
    rw [show List.filterMap recPayload [NlRec.attr TCA_AIFO_BUCKETS_LOG 4 (ilog2 v)] =
      [RtAttr.mk TCA_AIFO_BUCKETS_LOG (natToBytes 4 (ilog2 v))] from rfl]
    rw [aifo_print_opt_single_buckets (ilog2 v) (by omega), Nat.one_shiftLeft]
  · intro s0 hs0
    have hparse0 : parseArgs ["buckets", s0] {} = .ok {} := by
      simp [parseArgs, hs0]
    have henc0 := aifo_parse_opt_ok ["buckets", s0] {} n hparse0 ha hcap
    simpa using henc0

/-- C1 witness: buckets 1000 encodes BUCKETS_LOG = 10 and decodes/prints
as buckets 1024. -/
theorem claim_C1_witness :
    get_unsigned "1000" = some 1000 ∧
    aifo_parse_opt ["buckets", "1000"] (NlMsg.mk 36 []) =
      (0, NlMsg.mk 48 [NlRec.nestStart TCA_OPTIONS (some 12),
                       NlRec.attr TCA_AIFO_BUCKETS_LOG 4 10]) ∧
    aifo_print_opt (some (nestedAttrs
        (aifo_parse_opt ["buckets", "1000"] (NlMsg.mk 36 [])).2 1)) =
      (0, [("buckets", 1024)]) := by
  have h := claim_C1 "1000" 1000 (NlMsg.mk 36 []) rfl (by norm_num) (by norm_num)
    (by norm_num) (by norm_num)
  have h10 : ilog2 1000 = 10 := by simp [ilog2, ilog2_loop]
  refine ⟨rfl, ?_, ?_⟩
  · have h1 := h.1
    rw [h10] at h1
    simpa using h1
  · have h4 := h.2.2.2.1
    rw [h10] at h4
    simpa using h4

theorem parseArgs_flags_free (args : List String) (c c' : Cfg)
    (hfree : ∀ a ∈ args, lowerStr a ≠ "flags")
    (h : parseArgs args c = Except.ok c') : c'.flags_upd = c.flags_upd := by
  induction args, c using parseArgs.induct <;> try simp_all [parseArgs]
  case case19 c v rest2 d hx hle ih =>
    rw [if_neg (by omega : ¬AIFO_SAMPLE_SIZE_MAX < d)] at h
    exact ih h
  case case27 rest c =>
    obtain ⟨h1, -⟩ := hfree
    rw [parseArgs.eq_def] at h
    simp [h1] at h
  case case28 a rest c h1 h2 h3 h4 h5 h6 h7 h8 =>
    obtain ⟨hf, -⟩ := hfree
    rw [parseArgs.eq_def] at h
    simp [h1, h2, h3, h4, h5, h6, h7, h8, hf] at h

theorem emitted_flags (c : Cfg) :
    (emitted c).any (fun r => r.tag == TCA_AIFO_FLAGS) = c.flags_upd := by
  unfold emitted emitRecs planOf
  simp only [List.foldr_cons, List.foldr_nil]
  split_ifs with h1 h2 h3 h4 h5 h6 h7 h8 <;>
    simp_all [NlRec.tag, TCA_AIFO_PLIMIT, TCA_AIFO_BURST, TCA_AIFO_BUCKETS_LOG,
      TCA_AIFO_HASH_MASK, TCA_AIFO_FLOW_PLIMIT, TCA_AIFO_SAMPLE_SIZE,
      TCA_AIFO_SAMPLE_PERIOD, TCA_AIFO_FLAGS]

theorem emitted_tags_sublist (c : Cfg) :
    List.Sublist ((emitted c).map NlRec.tag)
      [TCA_AIFO_PLIMIT, TCA_AIFO_BURST, TCA_AIFO_BUCKETS_LOG, TCA_AIFO_HASH_MASK,
       TCA_AIFO_FLOW_PLIMIT, TCA_AIFO_SAMPLE_SIZE, TCA_AIFO_SAMPLE_PERIOD,
       TCA_AIFO_FLAGS] := by
  unfold emitted emitRecs planOf
  simp only [List.foldr_cons, List.foldr_nil]
  split_ifs <;>
    simp only [List.map_append, List.map_cons, List.map_nil, NlRec.tag,
      List.nil_append, List.append_nil, List.cons_append] <;>
    decide

theorem emitted_all_attrs (c : Cfg) : (emitted c).all NlRec.isAttr = true := by
  unfold emitted emitRecs planOf
  simp only [List.foldr_cons, List.foldr_nil]
  split_ifs <;> simp [NlRec.isAttr]

theorem emitBytes_length (c : Cfg) : emitBytes c = 8 * (emitted c).length := by
  unfold emitBytes emitted emitLen emitRecs planOf
  simp only [List.foldr_cons, List.foldr_nil]
  split_ifs <;> simp

theorem runPlan_empty (m : NlMsg) : runPlan m (planOf {}) = m := rfl

theorem aifo_serialize_empty (n : NlMsg) :
    ((aifo_serialize {} n).2.recs.drop n.recs.length).all (fun r => !r.isAttr) = true := by
  unfold aifo_serialize
  simp only [runPlan_empty]
  unfold addattr_nest addattr_nest_end
  by_cases hcc : 1024 < NLMSG_ALIGN n.nlmsg_len + 4
  · rw [if_pos hcc]
    show ((patchRec n.recs n.recs.length _).drop n.recs.length).all _ = true
    rw [patchRec_oob n.recs n.recs.length _ (le_refl _), List.drop_length]
    rfl
  · rw [if_neg hcc]
    show ((patchRec (n.recs ++ [NlRec.nestStart TCA_OPTIONS none]) n.recs.length _).drop
      n.recs.length).all _ = true
    rw [patchRec_append n.recs [NlRec.nestStart TCA_OPTIONS none] _]
    show ((n.recs ++ [NlRec.nestStart TCA_OPTIONS (some _)]).drop n.recs.length).all _ = true
    rw [List.drop_left]
    rfl

/-- C2 (code-bug exhibit): a BURST attribute whose payload is only 2
bytes is still extracted and printed by the decoder — its guard checks
only sizeof(u16) = 2 even though the subsequent read is 32-bit — while a
PLIMIT attribute with the same 2-byte payload is silently skipped, and
the decode still reports success. -/
theorem claim_C2_code_bug :
    (aifo_print_opt (some [RtAttr.mk TCA_AIFO_BURST [7, 0],
                           RtAttr.mk TCA_AIFO_PLIMIT [7, 0]])).2.map Prod.fst =
      ["burst"] ∧
    (aifo_print_opt (some [RtAttr.mk TCA_AIFO_BURST [7, 0],
                           RtAttr.mk TCA_AIFO_PLIMIT [7, 0]])).1 = 0 := by
  decide

/-- C3 (amended): the encode call returns success (0) for every token
list the parse loop accepts, regardless of the output buffer's capacity —
the statuses reported by the buffer-append primitives are discarded, so a
capacity failure is never propagated to the caller. -/
theorem claim_C3_amended (args : List String) (c : Cfg) (n : NlMsg)
    (hp : parseArgs args {} = Except.ok c) :
    (aifo_parse_opt args n).1 = 0 := by
  unfold aifo_parse_opt
  rw [hp]
  rfl

/-- C3 counterexample: on a buffer with only 4 free bytes (1020 of 1024
used), the nest header fits but the PLIMIT append reports a capacity
failure (-1); the encode call nevertheless returns success 0, with a
partial write (the nest header was appended, the attribute was not). -/
theorem claim_C3_counterexample :
    (addattr32 (addattr_nest (NlMsg.mk 1020 []) 1024 TCA_OPTIONS).2 1024
        TCA_AIFO_PLIMIT 5).1 = -1 ∧
    (aifo_parse_opt ["limit", "5"] (NlMsg.mk 1020 [])).1 = 0 ∧
    (aifo_parse_opt ["limit", "5"] (NlMsg.mk 1020 [])).2 ≠ NlMsg.mk 1020 [] ∧
    (aifo_parse_opt ["limit", "5"] (NlMsg.mk 1020 [])).2.recs.all
      (fun r => !r.isAttr) = true := by
  decide

/-- C3 witness: the amended theorem applied at a concrete parsed input on
a nearly-full buffer. -/
theorem claim_C3_witness :
    parseArgs ["limit", "5"] {} = Except.ok ({ plimit := 5 } : Cfg) ∧
    (aifo_parse_opt ["limit", "5"] (NlMsg.mk 1020 [])).1 = 0 :=
  ⟨rfl, claim_C3_amended ["limit", "5"] ({ plimit := 5 } : Cfg) (NlMsg.mk 1020 []) rfl⟩

/-- C4: for any successfully parsed token list the encoder emits the
present fields in the fixed tag-declaration order (the emitted tag list
is a sublist of the declaration order), all leaf attributes, wrapped in
exactly one nest whose back-patched length covers exactly the emitted
attributes; and the output depends only on the parsed configuration, so
two token lists parsing to the same configuration encode identically. -/
theorem claim_C4 (args args2 : List String) (c : Cfg) (n : NlMsg)
    (hp : parseArgs args {} = Except.ok c)
    (ha : n.nlmsg_len % 4 = 0) (hcap : n.nlmsg_len + 100 ≤ 1024) :
    aifo_parse_opt args n =
      (0, ⟨n.nlmsg_len + 4 + emitBytes c,
           n.recs ++ NlRec.nestStart TCA_OPTIONS (some (4 + emitBytes c)) ::
             emitted c⟩) ∧
    List.Sublist ((emitted c).map NlRec.tag)
      [TCA_AIFO_PLIMIT, TCA_AIFO_BURST, TCA_AIFO_BUCKETS_LOG, TCA_AIFO_HASH_MASK,
       TCA_AIFO_FLOW_PLIMIT, TCA_AIFO_SAMPLE_SIZE, TCA_AIFO_SAMPLE_PERIOD,
       TCA_AIFO_FLAGS] ∧
    (emitted c).all NlRec.isAttr = true ∧
    emitBytes c = 8 * (emitted c).length ∧
    (parseArgs args2 {} = Except.ok c → aifo_parse_opt args2 n = aifo_parse_opt args n) := by
  refine ⟨aifo_parse_opt_ok args c n hp ha hcap, emitted_tags_sublist c,
    emitted_all_attrs c, emitBytes_length c, ?_⟩
  intro hp2
  rw [aifo_parse_opt_ok args c n hp ha hcap, aifo_parse_opt_ok args2 c n hp2 ha hcap]

/-- C4 witness: tokens supplied in reverse declaration order (speriod
before limit) still encode PLIMIT before SAMPLE_PERIOD, and the
reordered token list encodes identically. -/
theorem claim_C4_witness :
    parseArgs ["speriod", "7", "limit", "5"] {} =
      Except.ok ({ plimit := 5, sample_period := 7 } : Cfg) ∧
    aifo_parse_opt ["speriod", "7", "limit", "5"] (NlMsg.mk 36 []) =
      (0, NlMsg.mk 56 [NlRec.nestStart TCA_OPTIONS (some 20),
        NlRec.attr TCA_AIFO_PLIMIT 4 5, NlRec.attr TCA_AIFO_SAMPLE_PERIOD 2 7]) ∧
    aifo_parse_opt ["limit", "5", "speriod", "7"] (NlMsg.mk 36 []) =
      aifo_parse_opt ["speriod", "7", "limit", "5"] (NlMsg.mk 36 []) := by
  have h := claim_C4 ["speriod", "7", "limit", "5"] ["limit", "5", "speriod", "7"]
    ({ plimit := 5, sample_period := 7 } : Cfg) (NlMsg.mk 36 []) rfl (by norm_num)
    (by norm_num)
  refine ⟨rfl, ?_, h.2.2.2.2 rfl⟩
  have h1 := h.1
  simpa [emitted, emitRecs, emitBytes, emitLen, planOf] using h1

/-- C5: the options decode entry fails (with TruncatedBuffer) exactly
when a present raw buffer is too small to contain the outer block header;
every other input — absent, empty block, or any block contents — decodes
successfully with status 0, and no inner-field condition ever makes it
fail. -/
theorem claim_C5 (buf : Option (List Nat)) :
    ((∃ e, decode_options buf = Except.error e) ↔
      (∃ b, buf = some b ∧ b.length < 4)) ∧
    (∀ r, decode_options buf = Except.ok r → r.1 = 0) ∧
    decode_options none = Except.ok ((0 : Int), ([] : List (String × Nat))) := by
  refine ⟨⟨?_, ?_⟩, ?_, rfl⟩
  · rintro ⟨e, he⟩
    rcases buf with _ | b
    · simp [decode_options] at he
    · by_cases hl : b.length < 4
      · exact ⟨b, rfl, hl⟩
      · simp [decode_options, hl] at he
  · rintro ⟨b, rfl, hl⟩
    exact ⟨DecodeErr.truncatedBuffer, by simp [decode_options, hl]⟩
  · intro r hr
    rcases buf with _ | b
    · have hd : aifo_print_opt none = r := by simpa [decode_options] using hr
      rw [← hd]
      exact aifo_print_opt_status none
    · by_cases hl : b.length < 4
      · simp [decode_options, hl] at hr
      · have hd : aifo_print_opt (some (splitRecords (b.drop 4))) = r := by
          simpa [decode_options, hl] using hr
        rw [← hd]
        exact aifo_print_opt_status _

/-- C5 witness: a 1-byte buffer fails as truncated; the absent input and
a well-formed empty block succeed with status 0. -/
theorem claim_C5_witness :
    (∃ e, decode_options (some [0]) = Except.error e) ∧
    decode_options none = Except.ok ((0 : Int), ([] : List (String × Nat))) ∧
    (aifo_print_opt (some (splitRecords ([] : List Nat)))).1 = 0 := by
  refine ⟨(claim_C5 (some [0])).1.mpr ⟨[0], rfl, by norm_num⟩,
    (claim_C5 none).2.2, ?_⟩
  exact (claim_C5 (some [0, 0, 0, 0])).2.1 _ rfl

/-- C6: the statistics renderer on a present buffer fails with -1 and
renders nothing when the buffer is shorter than the 40-byte structure,
and renders every field (the two peaks subject to the suppression rule)
when the buffer is at least the structure size. -/
theorem claim_C6 (b : List Nat) :
    (b.length < sizeof_tc_aifo_xstats →
      aifo_print_xstats (some b) = ((-1 : Int), ([] : List (String × Nat)))) ∧
    (sizeof_tc_aifo_xstats ≤ b.length →
      (aifo_print_xstats (some b)).1 = 0 ∧
      (aifo_print_xstats (some b)).2.map Prod.fst =
        ["flows", "flows_gc", "alloc_errors", "no_mark", "drop_mark", "quant_avg"] ++
        (if ((castXstats b).backlog_peak != 0 || (castXstats b).qlen_peak != 0) then
          ["backlog_peak", "qlen_peak"] else [])) := by
  constructor
  · intro hl
    simp [aifo_print_xstats, hl]
  · intro hl
    have hnl : ¬ b.length < sizeof_tc_aifo_xstats := by omega
    refine ⟨by simp [aifo_print_xstats, hnl], ?_⟩
    simp only [aifo_print_xstats, if_neg hnl]
    cases hpk : ((castXstats b).backlog_peak != 0 || (castXstats b).qlen_peak != 0) <;>
      simp [hpk]

/-- C6 witness: a 39-byte buffer fails entirely; a 40-byte all-zero
buffer renders all fields with both peaks suppressed. -/
theorem claim_C6_witness :
    (List.replicate 39 (0 : Nat)).length < sizeof_tc_aifo_xstats ∧
    aifo_print_xstats (some (List.replicate 39 (0 : Nat))) =
      ((-1 : Int), ([] : List (String × Nat))) ∧
    sizeof_tc_aifo_xstats ≤ (List.replicate 40 (0 : Nat)).length ∧
    (aifo_print_xstats (some (List.replicate 40 (0 : Nat)))).2.map Prod.fst =
      ["flows", "flows_gc", "alloc_errors", "no_mark", "drop_mark", "quant_avg"] := by
  have h39 := (claim_C6 (List.replicate 39 (0 : Nat))).1
    (by norm_num [sizeof_tc_aifo_xstats])
  have h40 := (claim_C6 (List.replicate 40 (0 : Nat))).2
    (by norm_num [sizeof_tc_aifo_xstats])
  refine ⟨by norm_num [sizeof_tc_aifo_xstats], h39,
    by norm_num [sizeof_tc_aifo_xstats], ?_⟩
  rw [h40.2]
  decide

/-- C7: encoding `flags x` emits a FLAGS attribute with value x (in
particular x = 0), which decodes and prints as flags = x; a token list
containing no flags token (case-insensitively) parses with the presence
flag unset and encodes no FLAGS attribute; and a FLAGS attribute is
emitted exactly when the presence flag is set, independent of the
value. -/
theorem claim_C7 (s : String) (x : Nat) (n : NlMsg)
    (hs : get_unsigned s = some x)
    (ha : n.nlmsg_len % 4 = 0) (hcap : n.nlmsg_len + 100 ≤ 1024) :
    aifo_parse_opt ["flags", s] n =
      (0, ⟨n.nlmsg_len + 12,
           n.recs ++ [NlRec.nestStart TCA_OPTIONS (some 12),
                      NlRec.attr TCA_AIFO_FLAGS 4 x]⟩) ∧
    aifo_print_opt (some (nestedAttrs (aifo_parse_opt ["flags", s] n).2
        (n.recs.length + 1))) = ((0 : Int), [("flags", x)]) ∧
    (∀ args c, (∀ a ∈ args, lowerStr a ≠ "flags") →
      parseArgs args {} = Except.ok c →
      c.flags_upd = false ∧
      (emitted c).any (fun r => r.tag == TCA_AIFO_FLAGS) = false) ∧
    (∀ c : Cfg, (emitted c).any (fun r => r.tag == TCA_AIFO_FLAGS) = c.flags_upd) := by
  have hx32 : x ≤ 4294967295 := get_unsigned_le s x hs
  have htl : lowerStr "flags" = "flags" := by decide
  have hparse : parseArgs ["flags", s] {} =
      Except.ok { flags := x, flags_upd := true } := by
    simp [parseArgs, hs, htl]
  have hemit : emitted { flags := x, flags_upd := true } =
      [NlRec.attr TCA_AIFO_FLAGS 4 x] := by
    simp [emitted, emitRecs, planOf]
  have hbytes : emitBytes { flags := x, flags_upd := true } = 8 := by
    simp [emitBytes, emitLen, planOf]
  have henc := aifo_parse_opt_ok ["flags", s] { flags := x, flags_upd := true } n
    hparse ha hcap
  rw [hemit, hbytes] at henc
  norm_num at henc
  refine ⟨henc, ?_, ?_, emitted_flags⟩
  · rw [henc]
    show aifo_print_opt (some ((List.drop (n.recs.length + 1)
      (n.recs ++ [NlRec.nestStart TCA_OPTIONS (some 12),
        NlRec.attr TCA_AIFO_FLAGS 4 x])).filterMap recPayload)) = _
    rw [show (n.recs ++ [NlRec.nestStart TCA_OPTIONS (some 12),
        NlRec.attr TCA_AIFO_FLAGS 4 x]) =
      n.recs ++ NlRec.nestStart TCA_OPTIONS (some 12) ::
        [NlRec.attr TCA_AIFO_FLAGS 4 x] from rfl]
    rw [drop_cons_append]
    rw [show List.filterMap recPayload [NlRec.attr TCA_AIFO_FLAGS 4 x] =
      [RtAttr.mk TCA_AIFO_FLAGS (natToBytes 4 x)] from rfl]
    exact aifo_print_opt_single_flags x (by omega)
  · intro args c hfree hok
    have hupd : c.flags_upd = false := parseArgs_flags_free args {} c hfree hok
    exact ⟨hupd, by rw [emitted_flags, hupd]⟩

/-- C7 witness: `flags 0` emits FLAGS = 0 and decodes as flags 0, while
the empty token list emits no FLAGS attribute. -/
theorem claim_C7_witness :
    get_unsigned "0" = some 0 ∧
    aifo_parse_opt ["flags", "0"] (NlMsg.mk 36 []) =
      (0, NlMsg.mk 48 [NlRec.nestStart TCA_OPTIONS (some 12),
                       NlRec.attr TCA_AIFO_FLAGS 4 0]) ∧
    aifo_print_opt (some (nestedAttrs
        (aifo_parse_opt ["flags", "0"] (NlMsg.mk 36 [])).2 1)) =
      ((0 : Int), [("flags", 0)]) ∧
    (emitted {}).any (fun r => r.tag == TCA_AIFO_FLAGS) = false := by
  have h := claim_C7 "0" 0 (NlMsg.mk 36 []) rfl (by norm_num) (by norm_num)
  refine ⟨rfl, ?_, ?_, ?_⟩
  · simpa using h.1
  · simpa using h.2.1
  · exact (h.2.2.1 [] {} (by simp) rfl).2

/-- C8: for a token value that parses as a 16-bit integer, encoding
`samples v` fails with ValueTooLarge exactly when v exceeds 1024 (leaving
the buffer untouched), and succeeds for v ≤ 1024, emitting a SAMPLE_SIZE
attribute with value v. -/
theorem claim_C8 (s : String) (v : Nat) (n : NlMsg)
    (hs : get_u16 s = some v)
    (ha : n.nlmsg_len % 4 = 0) (hcap : n.nlmsg_len + 100 ≤ 1024) :
    (1024 < v →
      parseArgs ["samples", s] {} =
        Except.error (ParseErr.valueTooLarge "samples") ∧
      aifo_parse_opt ["samples", s] n = (-1, n)) ∧
    (v ≤ 1024 →
      aifo_parse_opt ["samples", s] n =
        (0, ⟨n.nlmsg_len + 12,
             n.recs ++ [NlRec.nestStart TCA_OPTIONS (some 12),
                        NlRec.attr TCA_AIFO_SAMPLE_SIZE 2 v]⟩)) := by
  constructor
  · intro hv
    have hlt : AIFO_SAMPLE_SIZE_MAX < v := by
      simpa [AIFO_SAMPLE_SIZE_MAX] using hv
    have hp : parseArgs ["samples", s] {} =
        Except.error (ParseErr.valueTooLarge "samples") := by
      simp [parseArgs, hs, hlt]
    exact ⟨hp, aifo_parse_opt_err _ _ n hp⟩
  · intro hv
    have hnlt : ¬ AIFO_SAMPLE_SIZE_MAX < v := by
      simp [AIFO_SAMPLE_SIZE_MAX]
      omega
    have hp : parseArgs ["samples", s] {} = Except.ok { sample_size := v } := by
      simp [parseArgs, hs, hnlt]
    have hb : (v != 65535) = true := by
      simp [bne_iff_ne]
      omega
    have hemit : emitted { sample_size := v } =
        [NlRec.attr TCA_AIFO_SAMPLE_SIZE 2 v] := by
      simp [emitted, emitRecs, planOf, hb]
    have hbytes : emitBytes { sample_size := v } = 8 := by
      simp [emitBytes, emitLen, planOf, hb]
    have henc := aifo_parse_opt_ok _ _ n hp ha hcap
    rw [hemit, hbytes] at henc
    norm_num at henc
    exact henc

/-- C8 witness: samples 1025 fails, samples 1024 succeeds and emits
SAMPLE_SIZE = 1024. -/
theorem claim_C8_witness :
    get_u16 "1025" = some 1025 ∧
    aifo_parse_opt ["samples", "1025"] (NlMsg.mk 36 []) = (-1, NlMsg.mk 36 []) ∧
    get_u16 "1024" = some 1024 ∧
    aifo_parse_opt ["samples", "1024"] (NlMsg.mk 36 []) =
      (0, NlMsg.mk 48 [NlRec.nestStart TCA_OPTIONS (some 12),
                       NlRec.attr TCA_AIFO_SAMPLE_SIZE 2 1024]) := by
  have hbig := (claim_C8 "1025" 1025 (NlMsg.mk 36 []) rfl (by norm_num)
    (by norm_num)).1 (by norm_num)
  have hok := (claim_C8 "1024" 1024 (NlMsg.mk 36 []) rfl (by norm_num)
    (by norm_num)).2 (by norm_num)
  exact ⟨rfl, hbig.2, rfl, by simpa using hok⟩

/-- C9: every token-loop failure leaves the output buffer exactly as it
was (the encode call returns -1 with the untouched buffer), and a token
in option-name position that is none of the recognized names (nor
case-insensitive flags) fails the loop with UnknownOption naming it. -/
theorem claim_C9 (args : List String) (n : NlMsg) :
    (∀ e, parseArgs args {} = Except.error e → aifo_parse_opt args n = (-1, n)) ∧
    (∀ (name : String) (rest : List String) (c : Cfg),
      name ∉ ["limit", "buckets", "burst", "hash_mask", "flow_limit",
              "samples", "speriod", "help"] →
      lowerStr name ≠ "flags" →
      parseArgs (name :: rest) c = Except.error (ParseErr.unknownOption name)) := by
  constructor
  · intro e he
    exact aifo_parse_opt_err args e n he
  · intro name rest c hmem hfl
    simp only [List.mem_cons, List.not_mem_nil, or_false, not_or] at hmem
    obtain ⟨h1, h2, h3, h4, h5, h6, h7, h8⟩ := hmem
    rw [parseArgs.eq_def]
    simp [h1, h2, h3, h4, h5, h6, h7, h8, hfl]

/-- C9 witness: the unknown token `--bogus` fails with UnknownOption and
the buffer is returned unchanged. -/
theorem claim_C9_witness :
    parseArgs ["--bogus"] {} = Except.error (ParseErr.unknownOption "--bogus") ∧
    aifo_parse_opt ["--bogus"] (NlMsg.mk 36 []) = (-1, NlMsg.mk 36 []) := by
  have h := claim_C9 ["--bogus"] (NlMsg.mk 36 [])
  have hp := h.2 "--bogus" [] {} (by decide) (by decide)
  exact ⟨hp, h.1 (ParseErr.unknownOption "--bogus") hp⟩

/-- C10: supplying exactly the internal sentinel value on the command
line — limit/burst/flow_limit 4294967295, speriod 65535, hash_mask 0,
buckets 0 — produces an encode identical to supplying no token at all:
the call succeeds and appends no leaf attribute (only the empty nest
header, capacity permitting). -/
theorem claim_C10 (n : NlMsg) :
    aifo_parse_opt ["limit", "4294967295"] n = aifo_parse_opt [] n ∧
    aifo_parse_opt ["burst", "4294967295"] n = aifo_parse_opt [] n ∧
    aifo_parse_opt ["flow_limit", "4294967295"] n = aifo_parse_opt [] n ∧
    aifo_parse_opt ["speriod", "65535"] n = aifo_parse_opt [] n ∧
    aifo_parse_opt ["hash_mask", "0"] n = aifo_parse_opt [] n ∧
    aifo_parse_opt ["buckets", "0"] n = aifo_parse_opt [] n ∧
    (aifo_parse_opt [] n).1 = 0 ∧
    ((aifo_parse_opt [] n).2.recs.drop n.recs.length).all (fun r => !r.isAttr) = true := by
  refine ⟨rfl, rfl, rfl, rfl, rfl, rfl, rfl, ?_⟩
  exact aifo_serialize_empty n
